import Mathlib

/-!
Verification of exp1.py: data-variant construction for SST-2 removal
experiments.  The script builds training-set variants by shuffling,
filtering, argsort-ranking and slicing lists of labeled examples, writes
TSV files and JSON configs, and prints aggregate comparisons.  Every
definition below is a direct translation of the corresponding Python.
-/

/-- A labeled GLUE input example as used by exp1.py (fields text_a, text_b,
label of the transformers InputExample). -/
structure InputExample where
  text_a : String
  text_b : String
  label : String
deriving DecidableEq, Repr

instance : Inhabited InputExample := ⟨⟨"", "", ""⟩⟩

/-- n_examples_removed = int(0.1 * n).  For every list length arising here
the float product 0.1 * n truncates to the integer floor of n / 10. -/
def nRemoved (n : Nat) : Nat := n / 10

/-- negative_examples = [x for x in all_examples if x.label == chr(48)]. -/
def negativeExamples (l : List InputExample) : List InputExample :=
  l.filter (fun x => x.label == "0")

/-- positive_examples = [x for x in all_examples if x.label == chr(49)]. -/
def positiveExamples (l : List InputExample) : List InputExample :=
  l.filter (fun x => x.label == "1")

/-- Combined variant of remove_by_random: all_examples[n_removed:] after an
in-place shuffle; the shuffled list is passed explicitly, n is the full
training-set size read before shuffling. -/
def randomCombined (shuffledAll : List InputExample) (n : Nat) : List InputExample :=
  shuffledAll.drop (nRemoved n)

/-- Positive-targeted variant of remove_by_random:
positive_examples[n_removed:] + negative_examples, with positive_examples
shuffled in place and n the full training-set size. -/
def randomPositiveVariant (shuffledPos negList : List InputExample) (n : Nat) :
    List InputExample :=
  shuffledPos.drop (nRemoved n) ++ negList

/-- Negative-targeted variant of remove_by_random:
negative_examples[n_removed:] + positive_examples. -/
def randomNegativeVariant (shuffledNeg posList : List InputExample) (n : Nat) :
    List InputExample :=
  shuffledNeg.drop (nRemoved n) ++ posList

/-- np.argsort s: the indices 0..len(s)-1 ordered so that s is
non-decreasing along them. -/
def argsort (s : List Int) : List Nat :=
  (List.range s.length).mergeSort (fun i j => decide (s.getD i 0 ≤ s.getD j 0))

/-- Negation of a score vector, as in np.argsort(-scores). -/
def negVec (s : List Int) : List Int := s.map (fun x => -x)

/-- most_*_indices = np.argsort(-scores): indices ranked by decreasing score. -/
def mostRankedIndices (s : List Int) : List Nat := argsort (negVec s)

/-- least_* ordering: most_*_indices[::-1]. -/
def leastRankedIndices (s : List Int) : List Nat := (mostRankedIndices s).reverse

/-- Python fancy indexing: [train_examples[i] for i in idxs]. -/
def selectExamples (train : List InputExample) (idxs : List Nat) : List InputExample :=
  idxs.map (fun i => train.getD i default)

/-- most_confident_combined_removed (and most_similar_to_*_dev_removed have
the same shape): keep the examples at the ranked indices past the first
n_removed. -/
def mostCombinedRemoved (train : List InputExample) (s : List Int) : List InputExample :=
  selectExamples train ((mostRankedIndices s).drop (nRemoved train.length))

/-- least_confident_combined_removed (and least_similar_to_*_dev_removed):
same with the reversed ranking. -/
def leastCombinedRemoved (train : List InputExample) (s : List Int) : List InputExample :=
  selectExamples train ((leastRankedIndices s).drop (nRemoved train.length))

/-- output.label_ids for the SST-2 training set: label 1 for examples
labeled with the string for one, else 0. -/
def labelIds (train : List InputExample) : List Nat :=
  train.map (fun e => if e.label == "1" then 1 else 0)

/-- positive_indices = indices[output.label_ids == 1]. -/
def positiveIndices (train : List InputExample) : List Nat :=
  (List.range train.length).filter (fun i => (labelIds train).getD i 0 == 1)

/-- negative_indices = indices[output.label_ids == 0]. -/
def negativeIndices (train : List InputExample) : List Nat :=
  (List.range train.length).filter (fun i => (labelIds train).getD i 0 == 0)

/-- positive_scores, that is scores[label_ids == 1], realized by indexing
the score vector at the positive indices. -/
def positiveScores (train : List InputExample) (s : List Int) : List Int :=
  (positiveIndices train).map (fun i => s.getD i 0)

/-- negative_scores, that is scores[label_ids == 0]. -/
def negativeScores (train : List InputExample) (s : List Int) : List Int :=
  (negativeIndices train).map (fun i => s.getD i 0)

/-- most_confident_positive_indices = positive_indices[np.argsort(-positive_scores)]. -/
def mostConfidentPositiveIndices (train : List InputExample) (s : List Int) : List Nat :=
  (mostRankedIndices (positiveScores train s)).map (fun i => (positiveIndices train).getD i 0)

/-- most_confident_negative_indices = negative_indices[np.argsort(-negative_scores)]. -/
def mostConfidentNegativeIndices (train : List InputExample) (s : List Int) : List Nat :=
  (mostRankedIndices (negativeScores train s)).map (fun i => (negativeIndices train).getD i 0)

/-- most_confident_positive_removed: drop the n_removed most confident
positive examples, keep the remaining positives, append all negatives. -/
def mostConfidentPositiveRemoved (train : List InputExample) (s : List Int) :
    List InputExample :=
  selectExamples train ((mostConfidentPositiveIndices train s).drop (nRemoved train.length))
    ++ selectExamples train (negativeIndices train)

/-- most_confident_negative_removed: symmetric to the positive case. -/
def mostConfidentNegativeRemoved (train : List InputExample) (s : List Int) :
    List InputExample :=
  selectExamples train ((mostConfidentNegativeIndices train s).drop (nRemoved train.length))
    ++ selectExamples train (positiveIndices train)

/-- least_confident_positive_removed: drop the n_removed least confident
positive examples, that is the first n_removed of the reversed confidence
ranking, keep the remaining positives, append all negatives. -/
def leastConfidentPositiveRemoved (train : List InputExample) (s : List Int) :
    List InputExample :=
  selectExamples train
      ((mostConfidentPositiveIndices train s).reverse.drop (nRemoved train.length))
    ++ selectExamples train (negativeIndices train)

/-- least_confident_negative_removed: symmetric to the positive case. -/
def leastConfidentNegativeRemoved (train : List InputExample) (s : List Int) :
    List InputExample :=
  selectExamples train
      ((mostConfidentNegativeIndices train s).reverse.drop (nRemoved train.length))
    ++ selectExamples train (positiveIndices train)

/-- most_similar_to_*_dev_removed from remove_by_similarity: drop the
n_removed training examples ranked most similar to the chosen dev fold;
sim is the per-training-example accumulated similarity vector. -/
def mostSimilarRemoved (train : List InputExample) (sim : List Int) : List InputExample :=
  selectExamples train ((mostRankedIndices sim).drop (nRemoved train.length))

/-- least_similar_to_*_dev_removed: same with the reversed ranking. -/
def leastSimilarRemoved (train : List InputExample) (sim : List Int) : List InputExample :=
  selectExamples train ((leastRankedIndices sim).drop (nRemoved train.length))

/-- One body line of the SST-2 train.tsv written by create_data_config:
text_a, a tab, the label, a newline. -/
def sst2Line (e : InputExample) : List Char :=
  e.text_a.data ++ [Char.ofNat 9] ++ e.label.data ++ [Char.ofNat 10]

/-- The header line of the SST-2 train.tsv: the word sentence, a tab, the
word label, a newline. -/
def tsvHeaderLine : List Char :=
  "sentence".data ++ [Char.ofNat 9] ++ "label".data ++ [Char.ofNat 10]

/-- The full content of the SST-2 train.tsv written by create_data_config:
the header write followed by one formatted write per training example. -/
def sst2TrainFile (examples : List InputExample) : List Char :=
  examples.foldl (fun acc e => acc ++ sst2Line e) tsvHeaderLine

/-- The label written by sst2_without_subtrees: the string for zero when the
source label is the word negative, else the string for one. -/
def sst2WrittenLabel (label : String) : String :=
  if label == "negative" then "0" else "1"

/-- The positive count printed by compare_scores: sum(predictions). -/
def printedPositive (preds : List Nat) : Nat := preds.sum

/-- The negative count printed by compare_scores: len(predictions) - sum(predictions),
a Python int subtraction. -/
def printedNegative (preds : List Nat) : Int := (preds.length : Int) - (preds.sum : Int)

/-- predictions_modified[label_ids == t]: the predictions at positions whose
label id equals t. -/
def predictionsFold (preds labels : List Nat) (t : Nat) : List Nat :=
  (preds.zip labels).filterMap (fun p => if p.2 = t then some p.1 else none)

/-- The score deltas restricted to a fold: (scores_modified - scores_original)[label_ids == t]. -/
def diffFold (diff : List Rat) (labels : List Nat) (t : Nat) : List Rat :=
  (diff.zip labels).filterMap (fun p => if p.2 = t then some p.1 else none)

/-- np.mean of a score-delta vector. -/
def meanDiff (diff : List Rat) : Rat := diff.sum / (diff.length : Rat)

/-- The sign marker compare_scores prints before the mean delta: a plus sign
when the mean is strictly positive, else the empty string. -/
def signMarker (diff : List Rat) : String :=
  if 0 < meanDiff diff then "+" else ""

/-- config_name with the optional version number appended as a subdirectory. -/
def configNameWithVersion (config : String) (version : Option Nat) : String :=
  match version with
  | none => config
  | some v => config ++ "/" ++ toString v

/-- data_dir for a task and config name. -/
def dataDirOf (task config : String) : String := "data/" ++ task ++ "/" ++ config

/-- output_dir for a task and config name. -/
def outputDirOf (task config : String) : String := "output/" ++ task ++ "/" ++ config

/-- The config JSON written by create_data_config: the base config updated at
the two keys train_data_dir and output_dir.  A config is modeled as a map
from key to optional value. -/
def writtenConfig (base : String → Option String) (task config : String) :
    String → Option String :=
  fun k =>
    if k == "train_data_dir" then some (dataDirOf task config)
    else if k == "output_dir" then some (outputDirOf task config)
    else base k

/-- A fixed 12-example binary-labeled training list used to instantiate the
theorems on concrete data. -/
def sampleTrain : List InputExample :=
  [⟨"t0", "", "0"⟩, ⟨"t1", "", "1"⟩, ⟨"t2", "", "0"⟩, ⟨"t3", "", "1"⟩,
   ⟨"t4", "", "0"⟩, ⟨"t5", "", "1"⟩, ⟨"t6", "", "0"⟩, ⟨"t7", "", "1"⟩,
   ⟨"t8", "", "0"⟩, ⟨"t9", "", "1"⟩, ⟨"t10", "", "0"⟩, ⟨"t11", "", "1"⟩]

/-- A fixed score vector over the 12 sample examples. -/
def sampleScores : List Int :=
  [5, 3, 8, 1, 9, 2, 7, 4, 6, 0, 11, 10]


attribute [local semireducible] List.merge List.mergeSort

/-- np.argsort returns a permutation of the index range. -/
theorem argsort_perm (s : List Int) : (argsort s).Perm (List.range s.length) :=
  List.mergeSort_perm _ _

/-- Along the argsort order the scores are non-decreasing. -/
theorem argsort_sorted (s : List Int) :
    (argsort s).Pairwise (fun i j => s.getD i 0 ≤ s.getD j 0) := by
  have h := @List.sorted_mergeSort Nat
    (fun i j => decide (s.getD i 0 ≤ s.getD j 0))
    (fun a b c hab hbc => by simp only [decide_eq_true_eq] at *; omega)
    (fun a b => by simp only [Bool.or_eq_true, decide_eq_true_eq]; omega)
    (List.range s.length)
  exact h.imp (by simp only [decide_eq_true_eq]; exact fun h => h)

/-- Reading the negated vector at any position gives the negated entry. -/
theorem negVec_getD (s : List Int) (i : Nat) : (negVec s).getD i 0 = -(s.getD i 0) := by
  unfold negVec
  rcases h : s[i]? with _ | a <;> simp [List.getD_eq_getElem?_getD, h]

/-- The descending ranking is a permutation of the index range. -/
theorem mostRankedIndices_perm (s : List Int) :
    (mostRankedIndices s).Perm (List.range s.length) := by
  have h := argsort_perm (negVec s)
  simpa [negVec] using h

theorem mostRankedIndices_length (s : List Int) :
    (mostRankedIndices s).length = s.length := by
  simpa using (mostRankedIndices_perm s).length_eq

theorem leastRankedIndices_length (s : List Int) :
    (leastRankedIndices s).length = s.length := by
  simpa [leastRankedIndices] using mostRankedIndices_length s

/-- Along np.argsort(-s) the scores are non-increasing. -/
theorem mostRankedIndices_sorted (s : List Int) :
    (mostRankedIndices s).Pairwise (fun i j => s.getD j 0 ≤ s.getD i 0) := by
  have h := argsort_sorted (negVec s)
  refine h.imp ?_
  intro i j hij
  rw [negVec_getD, negVec_getD] at hij
  omega

/-- Along the reversed ranking the scores are non-decreasing. -/
theorem leastRankedIndices_sorted (s : List Int) :
    (leastRankedIndices s).Pairwise (fun i j => s.getD i 0 ≤ s.getD j 0) := by
  unfold leastRankedIndices
  exact List.pairwise_reverse.2 (mostRankedIndices_sorted s)

/-- A pairwise relation on a list holds between every dropped element of a
prefix and every kept element of the corresponding suffix. -/
theorem pairwise_take_drop {α : Type} {R : α → α → Prop} {l : List α}
    (h : l.Pairwise R) (k : Nat) : ∀ i ∈ l.take k, ∀ j ∈ l.drop k, R i j := by
  have h2 : (l.take k ++ l.drop k).Pairwise R := by rwa [List.take_append_drop]
  exact (List.pairwise_append.1 h2).2.2

theorem mostRankedIndices_nodup (s : List Int) : (mostRankedIndices s).Nodup :=
  (mostRankedIndices_perm s).nodup_iff.2 (List.nodup_range _)

theorem mem_mostRankedIndices (s : List Int) {i : Nat} (h : i ∈ mostRankedIndices s) :
    i < s.length := by
  have := (mostRankedIndices_perm s).subset h
  simpa using this

/-- Reading a mapped list at any position with the mapped default commutes
with the function. -/
theorem getD_map {α β : Type} (f : α → β) (l : List α) (d : α) (i : Nat) :
    (l.map f).getD i (f d) = f (l.getD i d) := by
  rcases h : l[i]? with _ | a <;> simp [List.getD_eq_getElem?_getD, h]

/-- Indexing a list over its whole index range reproduces the list. -/
theorem range_getD_map {α : Type} (l : List α) (d : α) :
    (List.range l.length).map (fun i => l.getD i d) = l := by
  apply List.ext_getElem
  · simp
  · intro i h1 h2
    simp only [List.getElem_map, List.getElem_range]
    exact List.getD_eq_getElem l d h2

/-- Fancy indexing by index-range positions selected by a predicate on the
stored element is the same as filtering the list. -/
theorem select_filter {α : Type} (l : List α) (p : α → Bool) (d : α) :
    ((List.range l.length).filter (fun i => p (l.getD i d))).map (fun i => l.getD i d)
      = l.filter p := by
  induction l with
  | nil => rfl
  | cons a t ih =>
    have hP : ((fun i => p ((a :: t).getD i d)) ∘ Nat.succ) = (fun i => p (t.getD i d)) := by
      funext i
      simp [Function.comp_apply, List.getD_cons_succ]
    have hF : ((fun i => (a :: t).getD i d) ∘ Nat.succ) = (fun i => t.getD i d) := by
      funext i
      simp [Function.comp_apply, List.getD_cons_succ]
    rw [List.length_cons, List.range_succ_eq_map, List.filter_cons]
    by_cases hp : p a
    · simp only [List.getD_cons_zero, hp, if_true, List.map_cons, List.filter_map,
        List.map_map, hP, hF, ih, List.filter_cons]
    · simp only [List.getD_cons_zero, hp, Bool.false_eq_true, if_false, List.filter_map,
        List.map_map, hP, hF, ih, List.filter_cons]

/-- The number of range positions holding a given value is its count. -/
theorem length_filter_range_getD {α : Type} [DecidableEq α] (l : List α) (d : α) (y : α) :
    ((List.range l.length).filter (fun i => l.getD i d == y)).length = l.count y := by
  have h := congrArg List.length (select_filter l (fun e => e == y) d)
  simpa [List.count_eq_countP, List.countP_eq_length_filter] using h

/-- A sub-permutation maps to a sub-permutation. -/
theorem subperm_map {α β : Type} (f : α → β) {l₁ l₂ : List α} (h : l₁.Subperm l₂) :
    (l₁.map f).Subperm (l₂.map f) := by
  obtain ⟨l, hp, hs⟩ := h
  exact ⟨l.map f, hp.map f, hs.map f⟩

/-- Fancy indexing at pairwise-distinct valid positions yields a
sub-permutation of the list. -/
theorem select_subperm {α : Type} [DecidableEq α] (l : List α) (d : α) (idxs : List Nat)
    (hnd : idxs.Nodup) (hb : ∀ i ∈ idxs, i < l.length) :
    (idxs.map (fun i => l.getD i d)).Subperm l := by
  rw [List.subperm_ext_iff]
  intro x hx
  have h1 : List.count x (idxs.map (fun i => l.getD i d))
      = (idxs.filter (fun i => l.getD i d == x)).length := by
    rw [List.count_eq_countP, List.countP_map, List.countP_eq_length_filter]
    rfl
  have hsub : (idxs.filter (fun i => l.getD i d == x)).Subperm
      ((List.range l.length).filter (fun i => l.getD i d == x)) := by
    apply List.Nodup.subperm (hnd.filter _)
    intro i hi
    rw [List.mem_filter] at hi ⊢
    exact ⟨List.mem_range.2 (hb i hi.1), hi.2⟩
  have h2 := hsub.length_le
  rw [length_filter_range_getD] at h2
  omega

/-- Fancy indexing by a permutation of the index range permutes the list. -/
theorem select_perm {α : Type} (l : List α) (d : α) {order : List Nat}
    (h : order.Perm (List.range l.length)) :
    (order.map (fun i => l.getD i d)).Perm l := by
  have h2 := h.map (fun i => l.getD i d)
  rwa [range_getD_map] at h2

/-- With binary labels the two class filters split the training list. -/
theorem partition_length (all : List InputExample)
    (hbin : ∀ e ∈ all, e.label = "0" ∨ e.label = "1") :
    (negativeExamples all).length + (positiveExamples all).length = all.length := by
  induction all with
  | nil => simp [negativeExamples, positiveExamples]
  | cons a t ih =>
    have ht := ih (fun e he => hbin e (List.mem_cons_of_mem a he))
    rcases hbin a (List.mem_cons_self a t) with h | h <;>
      simp [negativeExamples, positiveExamples, List.filter_cons, h] at ht ⊢ <;>
      omega

/-- The label-id vector read at any valid position is one exactly for a
positively labeled example. -/
theorem labelIds_getD (train : List InputExample) (i : Nat) :
    (labelIds train).getD i 0
      = (if (train.getD i default).label == "1" then 1 else 0) := by
  have h := getD_map (fun e : InputExample => if e.label == "1" then 1 else 0)
    train default i
  have hd : (if (default : InputExample).label == "1" then 1 else 0) = 0 := by decide
  rw [labelIds, ← hd]
  exact h

/-- Indexing the training list at positive_indices gives the positive filter. -/
theorem select_positiveIndices (train : List InputExample) :
    selectExamples train (positiveIndices train) = positiveExamples train := by
  have hpred : ∀ i ∈ List.range train.length,
      ((labelIds train).getD i 0 == 1) = ((train.getD i default).label == "1") := by
    intro i hi
    rw [labelIds_getD]
    by_cases h : (train.getD i default).label == "1" <;> simp [h]
  unfold selectExamples positiveIndices positiveExamples
  rw [List.filter_congr hpred]
  exact select_filter train (fun e => e.label == "1") default

/-- Indexing the training list at negative_indices gives, for binary labels,
the negative filter. -/
theorem select_negativeIndices (train : List InputExample)
    (hbin : ∀ e ∈ train, e.label = "0" ∨ e.label = "1") :
    selectExamples train (negativeIndices train) = negativeExamples train := by
  have hpred : ∀ i ∈ List.range train.length,
      ((labelIds train).getD i 0 == 0) = (!((train.getD i default).label == "1")) := by
    intro i hi
    rw [labelIds_getD]
    by_cases h : (train.getD i default).label == "1"
    · rw [if_pos h, h]
      decide
    · rw [if_neg h, Bool.eq_false_iff.mpr h]
      decide
  unfold selectExamples negativeIndices negativeExamples
  rw [List.filter_congr hpred, select_filter train (fun e => !(e.label == "1")) default]
  apply List.filter_congr
  intro e he
  rcases hbin e he with h | h <;> simp [h]

theorem positiveIndices_length (train : List InputExample) :
    (positiveIndices train).length = (positiveExamples train).length := by
  have h := congrArg List.length (select_positiveIndices train)
  simpa [selectExamples] using h

theorem negativeIndices_length (train : List InputExample)
    (hbin : ∀ e ∈ train, e.label = "0" ∨ e.label = "1") :
    (negativeIndices train).length = (negativeExamples train).length := by
  have h := congrArg List.length (select_negativeIndices train hbin)
  simpa [selectExamples] using h

/-- The confidence-ranked positive index list permutes positive_indices. -/
theorem mostConfidentPositiveIndices_perm (train : List InputExample) (s : List Int) :
    (mostConfidentPositiveIndices train s).Perm (positiveIndices train) := by
  unfold mostConfidentPositiveIndices
  apply select_perm (positiveIndices train) 0
  have h := mostRankedIndices_perm (positiveScores train s)
  simpa [positiveScores] using h

/-- The confidence-ranked negative index list permutes negative_indices. -/
theorem mostConfidentNegativeIndices_perm (train : List InputExample) (s : List Int) :
    (mostConfidentNegativeIndices train s).Perm (negativeIndices train) := by
  unfold mostConfidentNegativeIndices
  apply select_perm (negativeIndices train) 0
  have h := mostRankedIndices_perm (negativeScores train s)
  simpa [negativeScores] using h

/-- C1: every combined variant built by remove_by_random (a shuffle then a
slice), remove_by_confidence and remove_by_similarity (an argsort ranking
then a slice) has exactly n - floor(0.1 * n) examples, n the training-set
size. -/
theorem claim_C1 (train shuffled : List InputExample) (s sim : List Int)
    (hn : 1 ≤ train.length) (hperm : shuffled.Perm train)
    (hs : s.length = train.length) (hsim : sim.length = train.length) :
    (randomCombined shuffled train.length).length = train.length - nRemoved train.length ∧
    (mostCombinedRemoved train s).length = train.length - nRemoved train.length ∧
    (leastCombinedRemoved train s).length = train.length - nRemoved train.length ∧
    (mostSimilarRemoved train sim).length = train.length - nRemoved train.length ∧
    (leastSimilarRemoved train sim).length = train.length - nRemoved train.length := by
  refine ⟨?_, ?_, ?_, ?_, ?_⟩ <;>
    simp [randomCombined, mostCombinedRemoved, leastCombinedRemoved, mostSimilarRemoved,
      leastSimilarRemoved, selectExamples, mostRankedIndices_length,
      leastRankedIndices_length, hperm.length_eq, hs, hsim]

theorem claim_C1_witness :
    (randomCombined sampleTrain.reverse sampleTrain.length).length
        = sampleTrain.length - nRemoved sampleTrain.length ∧
    (mostCombinedRemoved sampleTrain sampleScores).length
        = sampleTrain.length - nRemoved sampleTrain.length ∧
    (leastCombinedRemoved sampleTrain sampleScores).length
        = sampleTrain.length - nRemoved sampleTrain.length ∧
    (mostSimilarRemoved sampleTrain sampleScores).length
        = sampleTrain.length - nRemoved sampleTrain.length ∧
    (leastSimilarRemoved sampleTrain sampleScores).length
        = sampleTrain.length - nRemoved sampleTrain.length :=
  claim_C1 sampleTrain sampleTrain.reverse sampleScores sampleScores
    (by decide) (by decide) (by decide) (by decide)

/-- Counts in two filters by mutually exclusive predicates add up to at most
the count in the list. -/
theorem count_two_filters_le {α : Type} [DecidableEq α] (p q : α → Bool)
    (hpq : ∀ e, ¬(p e = true ∧ q e = true)) (l : List α) (x : α) :
    (l.filter p).count x + (l.filter q).count x ≤ l.count x := by
  by_cases hp : p x
  · have h1 : (l.filter p).count x = l.count x := List.count_filter hp
    have hq : q x = false := by
      cases hqx : q x
      · rfl
      · exact absurd ⟨hp, hqx⟩ (hpq x)
    have h2 : (l.filter q).count x = 0 := by
      rw [List.count_eq_zero]
      intro hm
      have hqt := (List.mem_filter.1 hm).2
      rw [hq] at hqt
      cases hqt
    omega
  · have h1 : (l.filter p).count x = 0 := by
      rw [List.count_eq_zero]
      intro hm
      exact hp (List.mem_filter.1 hm).2
    have h2 : (l.filter q).count x ≤ l.count x := (List.filter_sublist l).count_le x
    omega

/-- No example carries the positive and the negative label at once. -/
theorem labels_exclusive :
    ∀ e : InputExample, ¬((e.label == "1") = true ∧ (e.label == "0") = true) := by
  intro e ⟨h1, h0⟩
  simp only [beq_iff_eq] at h1 h0
  rw [h1] at h0
  exact absurd h0 (by decide)

/-- C7: every variant list is a sub-multiset of its source training list:
a slice of a shuffle, a class slice plus the untouched other class, or a
selection at pairwise-distinct valid indices. -/
theorem claim_C7 (all shuffled shuffledPos shuffledNeg train : List InputExample)
    (s : List Int) (idxs : List Nat)
    (hperm : shuffled.Perm all)
    (hsp : shuffledPos.Perm (positiveExamples all))
    (hsn : shuffledNeg.Perm (negativeExamples all))
    (hnd : idxs.Nodup) (hb : ∀ i ∈ idxs, i < train.length)
    (hs : s.length = train.length) :
    (randomCombined shuffled all.length).Subperm all ∧
    (randomPositiveVariant shuffledPos (negativeExamples all) all.length).Subperm all ∧
    (randomNegativeVariant shuffledNeg (positiveExamples all) all.length).Subperm all ∧
    (selectExamples train idxs).Subperm train ∧
    (mostCombinedRemoved train s).Subperm train ∧
    (leastCombinedRemoved train s).Subperm train := by
  refine ⟨?_, ?_, ?_, ?_, ?_, ?_⟩
  · exact ((List.drop_sublist _ _).subperm).trans hperm.subperm
  · rw [List.subperm_ext_iff]
    intro x hx
    rw [randomPositiveVariant, List.count_append]
    have hdp : (shuffledPos.drop (nRemoved all.length)).count x
        ≤ (positiveExamples all).count x := by
      have h1 := (List.drop_sublist (nRemoved all.length) shuffledPos).count_le x
      have h2 := hsp.count_eq x
      omega
    have hsum := count_two_filters_le (fun e => e.label == "1") (fun e => e.label == "0")
      labels_exclusive all x
    rw [positiveExamples] at hdp
    rw [negativeExamples]
    omega
  · rw [List.subperm_ext_iff]
    intro x hx
    rw [randomNegativeVariant, List.count_append]
    have hdp : (shuffledNeg.drop (nRemoved all.length)).count x
        ≤ (negativeExamples all).count x := by
      have h1 := (List.drop_sublist (nRemoved all.length) shuffledNeg).count_le x
      have h2 := hsn.count_eq x
      omega
    have hsum := count_two_filters_le (fun e => e.label == "1") (fun e => e.label == "0")
      labels_exclusive all x
    rw [negativeExamples] at hdp
    rw [positiveExamples]
    omega
  · exact select_subperm train default idxs hnd hb
  · apply select_subperm train default
    · exact ((mostRankedIndices_nodup s).sublist (List.drop_sublist _ _))
    · intro i hi
      have := mem_mostRankedIndices s (List.drop_subset _ _ hi)
      omega
  · apply select_subperm train default
    · apply List.Nodup.sublist (List.drop_sublist _ _)
      exact List.nodup_reverse.2 (mostRankedIndices_nodup s)
    · intro i hi
      have hm := List.drop_subset _ _ hi
      rw [leastRankedIndices, List.mem_reverse] at hm
      have := mem_mostRankedIndices s hm
      omega

theorem claim_C7_witness :
    (randomCombined sampleTrain.reverse sampleTrain.length).Subperm sampleTrain ∧
    (selectExamples sampleTrain [0, 2, 5]).Subperm sampleTrain :=
  ⟨(claim_C7 sampleTrain sampleTrain.reverse (positiveExamples sampleTrain).reverse
      (negativeExamples sampleTrain).reverse sampleTrain sampleScores [0, 2, 5]
      (by decide) (by decide) (by decide) (by decide) (by decide) (by decide)).1,
   (claim_C7 sampleTrain sampleTrain.reverse (positiveExamples sampleTrain).reverse
      (negativeExamples sampleTrain).reverse sampleTrain sampleScores [0, 2, 5]
      (by decide) (by decide) (by decide) (by decide) (by decide) (by decide)).2.2.2.1⟩

/-- C2: each of the six class-targeted variants of remove_by_random (the
positive and the negative one) and of remove_by_confidence (most- and
least-confident, positive and negative) removes exactly floor(0.1 * n)
examples, all from the targeted class, keeps the non-targeted class
verbatim as a suffix, and has n - floor(0.1 * n) examples in total. -/
theorem claim_C2 (all shuffledPos shuffledNeg train : List InputExample) (s : List Int)
    (hbinA : ∀ e ∈ all, e.label = "0" ∨ e.label = "1")
    (hbinT : ∀ e ∈ train, e.label = "0" ∨ e.label = "1")
    (hsp : shuffledPos.Perm (positiveExamples all))
    (hsn : shuffledNeg.Perm (negativeExamples all))
    (hkpA : nRemoved all.length ≤ (positiveExamples all).length)
    (hknA : nRemoved all.length ≤ (negativeExamples all).length)
    (hkpT : nRemoved train.length ≤ (positiveExamples train).length)
    (hknT : nRemoved train.length ≤ (negativeExamples train).length) :
    (∃ kept,
      randomPositiveVariant shuffledPos (negativeExamples all) all.length
          = kept ++ negativeExamples all ∧
      kept.length = (positiveExamples all).length - nRemoved all.length ∧
      kept.Subperm (positiveExamples all) ∧
      (randomPositiveVariant shuffledPos (negativeExamples all) all.length).length
          = all.length - nRemoved all.length) ∧
    (∃ kept,
      randomNegativeVariant shuffledNeg (positiveExamples all) all.length
          = kept ++ positiveExamples all ∧
      kept.length = (negativeExamples all).length - nRemoved all.length ∧
      kept.Subperm (negativeExamples all) ∧
      (randomNegativeVariant shuffledNeg (positiveExamples all) all.length).length
          = all.length - nRemoved all.length) ∧
    (∃ kept,
      mostConfidentPositiveRemoved train s = kept ++ negativeExamples train ∧
      kept.length = (positiveExamples train).length - nRemoved train.length ∧
      kept.Subperm (positiveExamples train) ∧
      (mostConfidentPositiveRemoved train s).length
          = train.length - nRemoved train.length) ∧
    (∃ kept,
      mostConfidentNegativeRemoved train s = kept ++ positiveExamples train ∧
      kept.length = (negativeExamples train).length - nRemoved train.length ∧
      kept.Subperm (negativeExamples train) ∧
      (mostConfidentNegativeRemoved train s).length
          = train.length - nRemoved train.length) ∧
    (∃ kept,
      leastConfidentPositiveRemoved train s = kept ++ negativeExamples train ∧
      kept.length = (positiveExamples train).length - nRemoved train.length ∧
      kept.Subperm (positiveExamples train) ∧
      (leastConfidentPositiveRemoved train s).length
          = train.length - nRemoved train.length) ∧
    (∃ kept,
      leastConfidentNegativeRemoved train s = kept ++ positiveExamples train ∧
      kept.length = (negativeExamples train).length - nRemoved train.length ∧
      kept.Subperm (negativeExamples train) ∧
      (leastConfidentNegativeRemoved train s).length
          = train.length - nRemoved train.length) := by
  have hpartA := partition_length all hbinA
  have hpartT := partition_length train hbinT
  refine ⟨?_, ?_, ?_, ?_, ?_, ?_⟩
  · refine ⟨shuffledPos.drop (nRemoved all.length), rfl, ?_, ?_, ?_⟩
    · rw [List.length_drop, hsp.length_eq]
    · exact ((List.drop_sublist _ _).subperm).trans hsp.subperm
    · rw [randomPositiveVariant, List.length_append, List.length_drop, hsp.length_eq]
      omega
  · refine ⟨shuffledNeg.drop (nRemoved all.length), rfl, ?_, ?_, ?_⟩
    · rw [List.length_drop, hsn.length_eq]
    · exact ((List.drop_sublist _ _).subperm).trans hsn.subperm
    · rw [randomNegativeVariant, List.length_append, List.length_drop, hsn.length_eq]
      omega
  · have hmcl : (mostConfidentPositiveIndices train s).length
        = (positiveExamples train).length := by
      rw [(mostConfidentPositiveIndices_perm train s).length_eq, positiveIndices_length]
    refine ⟨selectExamples train
        ((mostConfidentPositiveIndices train s).drop (nRemoved train.length)),
      ?_, ?_, ?_, ?_⟩
    · rw [mostConfidentPositiveRemoved, select_negativeIndices train hbinT]
    · rw [selectExamples, List.length_map, List.length_drop, hmcl]
    · have hsub : ((mostConfidentPositiveIndices train s).drop
          (nRemoved train.length)).Subperm (positiveIndices train) :=
        ((List.drop_sublist _ _).subperm).trans
          (mostConfidentPositiveIndices_perm train s).subperm
      have := subperm_map (fun i => train.getD i default) hsub
      rw [show ((positiveIndices train).map (fun i => train.getD i default))
            = positiveExamples train from select_positiveIndices train] at this
      exact this
    · rw [mostConfidentPositiveRemoved, List.length_append, selectExamples,
        List.length_map, List.length_drop, hmcl, selectExamples, List.length_map,
        negativeIndices_length train hbinT]
      omega
  · have hmcl : (mostConfidentNegativeIndices train s).length
        = (negativeExamples train).length := by
      rw [(mostConfidentNegativeIndices_perm train s).length_eq,
        negativeIndices_length train hbinT]
    refine ⟨selectExamples train
        ((mostConfidentNegativeIndices train s).drop (nRemoved train.length)),
      ?_, ?_, ?_, ?_⟩
    · rw [mostConfidentNegativeRemoved, select_positiveIndices train]
    · rw [selectExamples, List.length_map, List.length_drop, hmcl]
    · have hsub : ((mostConfidentNegativeIndices train s).drop
          (nRemoved train.length)).Subperm (negativeIndices train) :=
        ((List.drop_sublist _ _).subperm).trans
          (mostConfidentNegativeIndices_perm train s).subperm
      have := subperm_map (fun i => train.getD i default) hsub
      rw [show ((negativeIndices train).map (fun i => train.getD i default))
            = negativeExamples train from select_negativeIndices train hbinT] at this
      exact this
    · rw [mostConfidentNegativeRemoved, List.length_append, selectExamples,
        List.length_map, List.length_drop, hmcl, selectExamples, List.length_map,
        positiveIndices_length]
      omega
  · have hmcl : ((mostConfidentPositiveIndices train s).reverse).length
        = (positiveExamples train).length := by
      rw [List.length_reverse, (mostConfidentPositiveIndices_perm train s).length_eq,
        positiveIndices_length]
    refine ⟨selectExamples train
        ((mostConfidentPositiveIndices train s).reverse.drop (nRemoved train.length)),
      ?_, ?_, ?_, ?_⟩
    · rw [leastConfidentPositiveRemoved, select_negativeIndices train hbinT]
    · rw [selectExamples, List.length_map, List.length_drop, hmcl]
    · have hsub : ((mostConfidentPositiveIndices train s).reverse.drop
          (nRemoved train.length)).Subperm (positiveIndices train) :=
        ((List.drop_sublist _ _).subperm).trans
          ((List.reverse_perm _).subperm.trans
            (mostConfidentPositiveIndices_perm train s).subperm)
      have hm := subperm_map (fun i => train.getD i default) hsub
      rw [show ((positiveIndices train).map (fun i => train.getD i default))
            = positiveExamples train from select_positiveIndices train] at hm
      exact hm
    · rw [leastConfidentPositiveRemoved, List.length_append, selectExamples,
        List.length_map, List.length_drop, hmcl, selectExamples, List.length_map,
        negativeIndices_length train hbinT]
      omega
  · have hmcl : ((mostConfidentNegativeIndices train s).reverse).length
        = (negativeExamples train).length := by
      rw [List.length_reverse, (mostConfidentNegativeIndices_perm train s).length_eq,
        negativeIndices_length train hbinT]
    refine ⟨selectExamples train
        ((mostConfidentNegativeIndices train s).reverse.drop (nRemoved train.length)),
      ?_, ?_, ?_, ?_⟩
    · rw [leastConfidentNegativeRemoved, select_positiveIndices train]
    · rw [selectExamples, List.length_map, List.length_drop, hmcl]
    · have hsub : ((mostConfidentNegativeIndices train s).reverse.drop
          (nRemoved train.length)).Subperm (negativeIndices train) :=
        ((List.drop_sublist _ _).subperm).trans
          ((List.reverse_perm _).subperm.trans
            (mostConfidentNegativeIndices_perm train s).subperm)
      have hm := subperm_map (fun i => train.getD i default) hsub
      rw [show ((negativeIndices train).map (fun i => train.getD i default))
            = negativeExamples train from select_negativeIndices train hbinT] at hm
      exact hm
    · rw [leastConfidentNegativeRemoved, List.length_append, selectExamples,
        List.length_map, List.length_drop, hmcl, selectExamples, List.length_map,
        positiveIndices_length]
      omega

theorem claim_C2_witness :
    (∃ kept,
      randomPositiveVariant (positiveExamples sampleTrain).reverse
          (negativeExamples sampleTrain) sampleTrain.length
          = kept ++ negativeExamples sampleTrain ∧
      kept.length = (positiveExamples sampleTrain).length - nRemoved sampleTrain.length ∧
      kept.Subperm (positiveExamples sampleTrain) ∧
      (randomPositiveVariant (positiveExamples sampleTrain).reverse
          (negativeExamples sampleTrain) sampleTrain.length).length
          = sampleTrain.length - nRemoved sampleTrain.length) ∧
    (∃ kept,
      mostConfidentPositiveRemoved sampleTrain sampleScores
          = kept ++ negativeExamples sampleTrain ∧
      kept.length = (positiveExamples sampleTrain).length - nRemoved sampleTrain.length ∧
      kept.Subperm (positiveExamples sampleTrain) ∧
      (mostConfidentPositiveRemoved sampleTrain sampleScores).length
          = sampleTrain.length - nRemoved sampleTrain.length) ∧
    (∃ kept,
      leastConfidentPositiveRemoved sampleTrain sampleScores
          = kept ++ negativeExamples sampleTrain ∧
      kept.length = (positiveExamples sampleTrain).length - nRemoved sampleTrain.length ∧
      kept.Subperm (positiveExamples sampleTrain) ∧
      (leastConfidentPositiveRemoved sampleTrain sampleScores).length
          = sampleTrain.length - nRemoved sampleTrain.length) :=
  ⟨(claim_C2 sampleTrain (positiveExamples sampleTrain).reverse
      (negativeExamples sampleTrain).reverse sampleTrain sampleScores
      (by decide) (by decide) (by decide) (by decide)
      (by decide) (by decide) (by decide) (by decide)).1,
   (claim_C2 sampleTrain (positiveExamples sampleTrain).reverse
      (negativeExamples sampleTrain).reverse sampleTrain sampleScores
      (by decide) (by decide) (by decide) (by decide)
      (by decide) (by decide) (by decide) (by decide)).2.2.1,
   (claim_C2 sampleTrain (positiveExamples sampleTrain).reverse
      (negativeExamples sampleTrain).reverse sampleTrain sampleScores
      (by decide) (by decide) (by decide) (by decide)
      (by decide) (by decide) (by decide) (by decide)).2.2.2.2.1⟩

/-- C4: ranking by argsort of the negated score vector lists scores in
non-increasing order, is a permutation of the index range, and the kept
slice past the first k ranked indices holds exactly the indices whose
scores do not exceed any dropped score. -/
theorem claim_C4 (s : List Int) (k : Nat) :
    ((mostRankedIndices s).Perm (List.range s.length)) ∧
    ((mostRankedIndices s).Pairwise (fun i j => s.getD j 0 ≤ s.getD i 0)) ∧
    (((mostRankedIndices s).drop k).length = s.length - k) ∧
    (∀ i ∈ (mostRankedIndices s).take k, ∀ j ∈ (mostRankedIndices s).drop k,
      s.getD j 0 ≤ s.getD i 0) := by
  refine ⟨mostRankedIndices_perm s, mostRankedIndices_sorted s, ?_, ?_⟩
  · simp [mostRankedIndices_length]
  · intro i hi j hj
    exact pairwise_take_drop (mostRankedIndices_sorted s) k i hi j hj

theorem claim_C4_witness :
    ([3, 9, 5] : List Int).getD 0 0 ≤ ([3, 9, 5] : List Int).getD 1 0 :=
  (claim_C4 [3, 9, 5] 1).2.2.2 1 (by decide) 0 (by decide)

/-- C5: the least ordering is the reverse of the most ordering; with
pairwise-distinct scores its dropped prefix holds the k strictly
lowest-scoring indices, and when 2k is at most the vector length every
index survives in the most-kept or the least-kept slice. -/
theorem claim_C5 (s : List Int) (k : Nat) (hnd : s.Nodup) (h2k : 2 * k ≤ s.length) :
    (leastRankedIndices s = (mostRankedIndices s).reverse) ∧
    (∀ i ∈ (leastRankedIndices s).take k, ∀ j ∈ (leastRankedIndices s).drop k,
      s.getD i 0 < s.getD j 0) ∧
    (∀ x ∈ List.range s.length,
      x ∈ (mostRankedIndices s).drop k ∨ x ∈ (leastRankedIndices s).drop k) := by
  refine ⟨rfl, ?_, ?_⟩
  · intro i hi j hj
    have hle := pairwise_take_drop (leastRankedIndices_sorted s) k i hi j hj
    have hnodup : (leastRankedIndices s).Nodup := by
      unfold leastRankedIndices
      exact List.nodup_reverse.2 (mostRankedIndices_nodup s)
    have hne : i ≠ j := by
      have h2 : ((leastRankedIndices s).take k ++ (leastRankedIndices s).drop k).Nodup := by
        rwa [List.take_append_drop]
      rcases List.nodup_append.1 h2 with ⟨-, -, hd⟩
      intro he
      exact hd hi (he ▸ hj)
    have hi2 : i < s.length := by
      have hm : i ∈ leastRankedIndices s := List.take_subset _ _ hi
      rw [leastRankedIndices, List.mem_reverse] at hm
      exact mem_mostRankedIndices s hm
    have hj2 : j < s.length := by
      have hm : j ∈ leastRankedIndices s := List.drop_subset _ _ hj
      rw [leastRankedIndices, List.mem_reverse] at hm
      exact mem_mostRankedIndices s hm
    have hsne : s.getD i 0 ≠ s.getD j 0 := by
      rw [List.getD_eq_getElem s 0 hi2, List.getD_eq_getElem s 0 hj2]
      intro he
      exact hne ((hnd.getElem_inj_iff).1 he)
    omega
  · intro x hx
    have hxm : x ∈ mostRankedIndices s :=
      (mostRankedIndices_perm s).mem_iff.2 hx
    have hlen : (mostRankedIndices s).length = s.length := mostRankedIndices_length s
    rw [← List.take_append_drop k (mostRankedIndices s), List.mem_append] at hxm
    rcases hxm with h | h
    · right
      unfold leastRankedIndices
      rw [List.drop_reverse, hlen, List.mem_reverse]
      have htk : (mostRankedIndices s).take k
          = ((mostRankedIndices s).take (s.length - k)).take k := by
        rw [List.take_take]
        congr 1
        omega
      rw [htk] at h
      exact List.take_subset _ _ h
    · left
      exact h

theorem claim_C5_witness :
    (([3, 9, 5, 1] : List Int).getD 3 0 < ([3, 9, 5, 1] : List Int).getD 0 0) ∧
    (1 ∈ (mostRankedIndices [3, 9, 5, 1]).drop 1 ∨
      1 ∈ (leastRankedIndices [3, 9, 5, 1]).drop 1) :=
  ⟨(claim_C5 [3, 9, 5, 1] 1 (by decide) (by decide)).2.1 3 (by decide) 0 (by decide),
   (claim_C5 [3, 9, 5, 1] 1 (by decide) (by decide)).2.2 1 (by decide)⟩

/-- C6: with binary labels the two class filters of remove_by_random
partition the training list: each example lands in exactly one of them and
their lengths add up to the whole list. -/
theorem claim_C6 (all : List InputExample)
    (hbin : ∀ e ∈ all, e.label = "0" ∨ e.label = "1") :
    ((negativeExamples all).length + (positiveExamples all).length = all.length) ∧
    (∀ e ∈ all, (e ∈ negativeExamples all ∧ e ∉ positiveExamples all) ∨
      (e ∈ positiveExamples all ∧ e ∉ negativeExamples all)) := by
  refine ⟨partition_length all hbin, ?_⟩
  intro e he
  rcases hbin e he with h | h
  · left
    refine ⟨List.mem_filter.2 ⟨he, by simp [h]⟩, fun hmem => ?_⟩
    have hq := (List.mem_filter.1 hmem).2
    simp [h] at hq
  · right
    refine ⟨List.mem_filter.2 ⟨he, by simp [h]⟩, fun hmem => ?_⟩
    have hq := (List.mem_filter.1 hmem).2
    simp [h] at hq

theorem claim_C6_witness :
    (negativeExamples sampleTrain).length + (positiveExamples sampleTrain).length
      = sampleTrain.length :=
  (claim_C6 sampleTrain (by decide)).1

/-- C8: in compare_scores the printed positive and negative counts of every
fold add up to the number of predictions in the fold, and the plus marker
is printed exactly when the mean score delta is strictly positive. -/
theorem claim_C8 (preds labels : List Nat) (diff : List Rat) (t : Nat) :
    ((printedPositive (predictionsFold preds labels t) : Int)
        + printedNegative (predictionsFold preds labels t)
        = ((predictionsFold preds labels t).length : Int)) ∧
    ((printedPositive preds : Int) + printedNegative preds = (preds.length : Int)) ∧
    (signMarker (diffFold diff labels t) = "+" ↔ 0 < meanDiff (diffFold diff labels t)) ∧
    (signMarker diff = "+" ↔ 0 < meanDiff diff) := by
  refine ⟨?_, ?_, ?_, ?_⟩
  · unfold printedPositive printedNegative
    ring
  · unfold printedPositive printedNegative
    ring
  · unfold signMarker
    split <;> simp_all
  · unfold signMarker
    split <;> simp_all

theorem claim_C8_witness :
    (printedPositive (predictionsFold [1, 0, 1] [1, 0, 0] 0) : Int)
        + printedNegative (predictionsFold [1, 0, 1] [1, 0, 0] 0)
        = ((predictionsFold [1, 0, 1] [1, 0, 0] 0).length : Int) :=
  (claim_C8 [1, 0, 1] [1, 0, 0] [1, -2] 0).1

/-- C9: sst2_without_subtrees writes label zero exactly for source label
negative, and label one for every other source label. -/
theorem claim_C9 (l : String) :
    (sst2WrittenLabel l = "0" ↔ l = "negative") ∧
    (l ≠ "negative" → sst2WrittenLabel l = "1") := by
  by_cases h : l = "negative" <;> simp [sst2WrittenLabel, h]

theorem claim_C9_witness : sst2WrittenLabel "neutral" = "1" :=
  (claim_C9 "neutral").2 (by decide)

/-- C10: the written config equals the base config with exactly the two keys
train_data_dir and output_dir replaced by the variant directories. -/
theorem claim_C10 (base : String → Option String) (task config : String) (k : String) :
    writtenConfig base task config "train_data_dir" = some (dataDirOf task config) ∧
    writtenConfig base task config "output_dir" = some (outputDirOf task config) ∧
    (k ≠ "train_data_dir" → k ≠ "output_dir" →
      writtenConfig base task config k = base k) := by
  refine ⟨rfl, ?_, ?_⟩
  · unfold writtenConfig
    simp
  · intro h1 h2
    unfold writtenConfig
    simp [h1, h2]

theorem claim_C10_witness :
    writtenConfig (fun _ => some "x") "SST-2" "most_similar_to_combined_dev_removed"
      "model_type" = some "x" :=
  (claim_C10 (fun _ => some "x") "SST-2" "most_similar_to_combined_dev_removed"
    "model_type").2.2 (by decide) (by decide)

/-- A left fold appending a chunk per element is the initial chunk followed
by the flattened chunks. -/
theorem foldl_append_eq {α β : Type} (f : β → List α) (l : List β) (init : List α) :
    l.foldl (fun acc e => acc ++ f e) init = init ++ (l.map f).flatten := by
  induction l generalizing init with
  | nil => simp
  | cons a t ih => simp [List.foldl_cons, ih, List.append_assoc]

theorem intercalate_cons2 {α : Type} (c : α) (a b : List α) (l : List (List α)) :
    [c].intercalate (a :: b :: l) = a ++ [c] ++ [c].intercalate (b :: l) := by
  simp [List.intercalate, List.intersperse]

/-- Terminating every chunk with a separator is the same as intercalating
the separator over the chunks plus a final empty chunk. -/
theorem flatten_map_append_singleton {α : Type} (c : α) (ls : List (List α)) :
    (ls.map (fun l => l ++ [c])).flatten = [c].intercalate (ls ++ [[]]) := by
  induction ls with
  | nil => rfl
  | cons a t ih =>
    cases t with
    | nil => simp [List.intercalate, List.intersperse]
    | cons b t2 =>
      simp only [List.cons_append] at ih ⊢
      rw [List.map_cons, List.flatten_cons, ih, intercalate_cons2]

/-- C3: for SST-2 the written train.tsv splits on newlines into the header
row, one tab-separated line per input example in input order, and the empty
chunk left by the final newline. -/
theorem claim_C3 (examples : List InputExample)
    (hta : ∀ e ∈ examples, Char.ofNat 10 ∉ e.text_a.data)
    (hlb : ∀ e ∈ examples, Char.ofNat 10 ∉ e.label.data) :
    (sst2TrainFile examples).splitOn (Char.ofNat 10)
      = ("sentence".data ++ [Char.ofNat 9] ++ "label".data)
        :: (examples.map (fun e => e.text_a.data ++ [Char.ofNat 9] ++ e.label.data)
            ++ [[]]) := by
  have hfile : sst2TrainFile examples
      = [Char.ofNat 10].intercalate
          ((("sentence".data ++ [Char.ofNat 9] ++ "label".data)
            :: examples.map (fun e => e.text_a.data ++ [Char.ofNat 9] ++ e.label.data))
           ++ [[]]) := by
    rw [sst2TrainFile, foldl_append_eq sst2Line examples tsvHeaderLine,
      ← flatten_map_append_singleton, List.map_cons, List.map_map]
    rfl
  rw [hfile]
  apply List.splitOn_intercalate
  · intro l hl
    rcases List.mem_append.1 hl with hl2 | hl3
    · rcases List.mem_cons.1 hl2 with rfl | hbody
      · decide
      · rcases List.mem_map.1 hbody with ⟨e, he, rfl⟩
        intro hmem
        rcases List.mem_append.1 hmem with hm1 | hm2
        · rcases List.mem_append.1 hm1 with hm3 | hm4
          · exact hta e he hm3
          · rcases List.mem_singleton.1 hm4 with h
            exact absurd h (by decide)
        · exact hlb e he hm2
    · rcases List.mem_singleton.1 hl3 with rfl
      intro hmem
      cases hmem
  · simp

theorem claim_C3_witness :
    (sst2TrainFile [⟨"good movie", "", "1"⟩, ⟨"bad movie", "", "0"⟩]).splitOn
        (Char.ofNat 10)
      = ("sentence".data ++ [Char.ofNat 9] ++ "label".data)
        :: ([⟨"good movie", "", "1"⟩, ⟨"bad movie", "", "0"⟩].map
              (fun e : InputExample => e.text_a.data ++ [Char.ofNat 9] ++ e.label.data)
            ++ [[]]) :=
  claim_C3 [⟨"good movie", "", "1"⟩, ⟨"bad movie", "", "0"⟩] (by decide) (by decide)
